import Mathlib

/-!
Shallow embedding of the training orchestration core of the Liux1n/nerfstudio
repository: `Trainer` (src/nerfstudio/engine/trainer.py) and
`Pipeline.load_state_dict` / `VanillaPipeline.load_pipeline`
(src/nerfstudio/pipelines/base_pipeline.py).

Python strings are embedded as `List Char`, machine floats used for scalar
losses and the gradient-scaler scale as `ℚ`, and the side-effecting parts of
the control loop (gradient zeroing, backward passes, optimizer and scheduler
steps, file writes and deletions) as explicit event traces.
-/

namespace NerfstudioTrainer

/-- Python string, embedded as a list of characters. -/
abbrev PyStr := List Char

/-! ## Trainer.train_iteration (trainer.py lines 639-677)

The iteration body is embedded as a trace of the stateful operations it
performs, in order:

* `zeroGrad`            — `self.optimizers.zero_grad_all()`
* `backward q`          — `self.grad_scaler.scale(loss).backward()` where `q`
                          is the scaled loss value fed to backward
* `optStep`             — `self.optimizers.optimizer_scaler_step_all(...)`
* `schedStepAll`        — `self.optimizers.scheduler_step_all(step)`
-/

/-- A stateful operation performed by `train_iteration`. -/
inductive TEvent where
  | zeroGrad : TEvent
  | backward : ℚ → TEvent
  | optStep : TEvent
  | schedStepAll : TEvent
deriving DecidableEq

/-- The inputs and environment of one `Trainer.train_iteration` call:
the configured accumulation count, the loss-dict values produced by
`pipeline.get_train_loss_dict` at each sub-step, the grad scaler's scale
before its `update()` call (`scale = self.grad_scaler.get_scale()`) and
after it, and the schedulers' internal step counters
(`scheduler._step_count` of each scheduler in `self.optimizers`). -/
structure TIEnv where
  gas : Int
  lossValues : Nat → List ℚ
  scale0 : ℚ
  scale1 : ℚ
  schedCounters : List Nat

/-- Embedding of `functools.reduce(torch.add, loss_dict.values())`. -/
def sumLosses (l : List ℚ) : ℚ := l.foldl (· + ·) 0

/-- The scaled loss back-propagated at sub-step `k`:
`loss = reduce(add, loss_dict.values()); loss /= gas;
self.grad_scaler.scale(loss)` multiplies by the current scale. -/
def subStepLoss (env : TIEnv) (k : Nat) : ℚ :=
  sumLosses (env.lossValues k) / (env.gas : ℚ) * env.scale0

/-- Embedding of `Trainer.train_iteration`.  Returns the trace of stateful
operations and the schedulers' step counters after the call, or, when the
`assert self.gradient_accumulation_steps > 0` fails, an error carrying the
trace performed up to the failing assert. -/
def train_iteration (env : TIEnv) : Except (List TEvent) (List TEvent × List Nat) :=
  let ev0 := [TEvent.zeroGrad]
  if 0 < env.gas then
    let backs := (List.range env.gas.toNat).map (fun k => TEvent.backward (subStepLoss env k))
    let evs := ev0 ++ backs ++ [TEvent.optStep]
    -- `if scale <= self.grad_scaler.get_scale(): self.optimizers.scheduler_step_all(step)`
    if env.scale0 ≤ env.scale1 then
      .ok (evs ++ [TEvent.schedStepAll], env.schedCounters.map (· + 1))
    else
      .ok (evs, env.schedCounters)
  else .error ev0

/-- Recognizers for the event kinds. -/
def isBackward : TEvent → Bool
  | .backward _ => true
  | _ => false

def isOptStep : TEvent → Bool
  | .optStep => true
  | _ => false

def isSchedStepAll : TEvent → Bool
  | .schedStepAll => true
  | _ => false

def isZeroGrad : TEvent → Bool
  | .zeroGrad => true
  | _ => false

/-- The backward events generated by the accumulation loop. -/
def backEvents (env : TIEnv) : List TEvent :=
  (List.range env.gas.toNat).map (fun k => TEvent.backward (subStepLoss env k))

theorem train_iteration_pos (env : TIEnv) (hg : 0 < env.gas) :
    train_iteration env =
      if env.scale0 ≤ env.scale1 then
        .ok (([TEvent.zeroGrad] ++ backEvents env ++ [TEvent.optStep]) ++ [TEvent.schedStepAll],
          env.schedCounters.map (· + 1))
      else
        .ok ([TEvent.zeroGrad] ++ backEvents env ++ [TEvent.optStep], env.schedCounters) := by
  simp [train_iteration, backEvents, hg]

theorem countP_backEvents_of_ne (env : TIEnv) (p : TEvent → Bool)
    (hp : ∀ q : ℚ, p (TEvent.backward q) = false) :
    (backEvents env).countP p = 0 := by
  refine List.countP_eq_zero.mpr ?_
  intro e he
  simp only [backEvents, List.mem_map, List.mem_range] at he
  obtain ⟨k, _, rfl⟩ := he
  simp [hp]

theorem countP_backEvents_isBackward (env : TIEnv) :
    (backEvents env).countP isBackward = env.gas.toNat := by
  have h : ∀ e ∈ backEvents env, isBackward e := by
    intro e he
    simp only [backEvents, List.mem_map, List.mem_range] at he
    obtain ⟨k, _, rfl⟩ := he
    rfl
  have h2 := List.countP_eq_length.mpr h
  simpa [backEvents] using h2

theorem filter_backOrOpt (env : TIEnv) :
    (backEvents env).filter (fun e => isBackward e || isOptStep e) = backEvents env := by
  refine List.filter_eq_self.mpr ?_
  intro e he
  simp only [backEvents, List.mem_map, List.mem_range] at he
  obtain ⟨k, _, rfl⟩ := he
  rfl

theorem backward_mem_backEvents (env : TIEnv) (e : TEvent) (he : e ∈ backEvents env)
    (hb : isBackward e = true) :
    ∃ k, k < env.gas.toNat ∧
      e = TEvent.backward (sumLosses (env.lossValues k) / (env.gas : ℚ) * env.scale0) := by
  simp only [backEvents, List.mem_map, List.mem_range] at he
  obtain ⟨k, hk, rfl⟩ := he
  exact ⟨k, hk, rfl⟩

/-- C1: in `Trainer.train_iteration`, the scheduler step is gated on the grad
scaler's scale not having decreased across `grad_scaler.update()`: when the
scale strictly decreases, no `scheduler_step_all` event occurs and every
scheduler's step counter is unchanged; otherwise `scheduler_step_all` occurs
exactly once and every scheduler's counter advances by one. -/
theorem scheduler_skip_on_scale_decrease (env : TIEnv) (evs : List TEvent) (sched' : List Nat)
    (h : train_iteration env = .ok (evs, sched')) :
    (env.scale1 < env.scale0 →
      sched' = env.schedCounters ∧ evs.countP isSchedStepAll = 0) ∧
    (env.scale0 ≤ env.scale1 →
      evs.countP isSchedStepAll = 1 ∧ sched' = env.schedCounters.map (· + 1)) := by
  have hg : 0 < env.gas := by
    by_contra hg
    simp [train_iteration, hg] at h
  rw [train_iteration_pos env hg] at h
  by_cases hs : env.scale0 ≤ env.scale1
  · rw [if_pos hs] at h
    simp only [Except.ok.injEq, Prod.mk.injEq] at h
    obtain ⟨h1, h2⟩ := h
    subst h1 h2
    refine ⟨fun hlt => absurd hs (not_le.mpr hlt), fun _ => ⟨?_, rfl⟩⟩
    simp [List.countP_append, countP_backEvents_of_ne env isSchedStepAll (fun _ => rfl),
      List.countP_cons, isSchedStepAll]
  · rw [if_neg hs] at h
    simp only [Except.ok.injEq, Prod.mk.injEq] at h
    obtain ⟨h1, h2⟩ := h
    subst h1 h2
    refine ⟨fun _ => ⟨rfl, ?_⟩, fun hle => absurd hle hs⟩
    simp [List.countP_append, countP_backEvents_of_ne env isSchedStepAll (fun _ => rfl),
      List.countP_cons, isSchedStepAll]

theorem scheduler_skip_on_scale_decrease_witness :
    ([5, 7] : List Nat) = [5, 7] ∧
      List.countP isSchedStepAll
        [TEvent.zeroGrad, TEvent.backward 4, TEvent.backward 4, TEvent.optStep] = 0 :=
  (scheduler_skip_on_scale_decrease ⟨2, fun _ => [2], 4, 2, [5, 7]⟩
    [TEvent.zeroGrad, TEvent.backward 4, TEvent.backward 4, TEvent.optStep] [5, 7]
    (by
      norm_num [train_iteration, backEvents, subStepLoss, sumLosses, List.range_succ]
      rfl)).1
    (by norm_num)

/-- C2: every successful `Trainer.train_iteration` call zeroes gradients
exactly once, at the very start; performs exactly `gradient_accumulation_steps`
backward sub-steps, each back-propagating the summed loss divided by
`gradient_accumulation_steps` and then multiplied by the scaler's scale;
performs exactly one optimizer step, after all backward sub-steps; and when
`gradient_accumulation_steps ≤ 0` the call fails at iteration start, before
any backward pass (the error trace holds only the zero-grad event). -/
theorem grad_accumulation_structure (env : TIEnv) :
    (∀ evs sched', train_iteration env = .ok (evs, sched') →
      evs.countP isZeroGrad = 1 ∧
      evs.head? = some TEvent.zeroGrad ∧
      (evs.countP isBackward : Int) = env.gas ∧
      evs.countP isOptStep = 1 ∧
      (∀ e ∈ evs, isBackward e = true →
        ∃ k, k < env.gas.toNat ∧
          e = TEvent.backward (sumLosses (env.lossValues k) / (env.gas : ℚ) * env.scale0)) ∧
      (evs.filter (fun e => isBackward e || isOptStep e)).getLast? = some TEvent.optStep) ∧
    (env.gas ≤ 0 → train_iteration env = .error [TEvent.zeroGrad]) := by
  constructor
  · intro evs sched' h
    have hg : 0 < env.gas := by
      by_contra hg
      simp [train_iteration, hg] at h
    rw [train_iteration_pos env hg] at h
    have hcount : ((backEvents env).countP isBackward : Int) = env.gas := by
      rw [countP_backEvents_isBackward env, Int.toNat_of_nonneg (le_of_lt hg)]
    by_cases hs : env.scale0 ≤ env.scale1 <;>
      [rw [if_pos hs] at h; rw [if_neg hs] at h] <;>
      (simp only [Except.ok.injEq, Prod.mk.injEq] at h
       obtain ⟨h1, h2⟩ := h
       subst h1 h2) <;>
      refine ⟨?_, ?_, ?_, ?_, ?_, ?_⟩
    · simp [List.countP_append, countP_backEvents_of_ne env isZeroGrad (fun _ => rfl),
        List.countP_cons, isZeroGrad]
    · rfl
    · simp only [List.countP_append, List.countP_cons, List.countP_nil]
      simpa [isBackward] using hcount
    · simp [List.countP_append, countP_backEvents_of_ne env isOptStep (fun _ => rfl),
        List.countP_cons, isOptStep]
    · intro e he hb
      simp at he
      rcases he with rfl | he | rfl | rfl
      · exact absurd hb (by decide)
      · exact backward_mem_backEvents env e he hb
      · exact absurd hb (by decide)
      · exact absurd hb (by decide)
    · have hf : ((([TEvent.zeroGrad] ++ backEvents env ++ [TEvent.optStep]) ++
            [TEvent.schedStepAll]).filter (fun e => isBackward e || isOptStep e))
          = backEvents env ++ [TEvent.optStep] := by
        rw [List.filter_append, List.filter_append, List.filter_append, filter_backOrOpt env]
        simp [isBackward, isOptStep]
      rw [hf, List.getLast?_append_cons]
      rfl
    · simp [List.countP_append, countP_backEvents_of_ne env isZeroGrad (fun _ => rfl),
        List.countP_cons, isZeroGrad]
    · rfl
    · simp only [List.countP_append, List.countP_cons, List.countP_nil]
      simpa [isBackward] using hcount
    · simp [List.countP_append, countP_backEvents_of_ne env isOptStep (fun _ => rfl),
        List.countP_cons, isOptStep]
    · intro e he hb
      simp at he
      rcases he with rfl | he | rfl
      · exact absurd hb (by decide)
      · exact backward_mem_backEvents env e he hb
      · exact absurd hb (by decide)
    · have hf : (([TEvent.zeroGrad] ++ backEvents env ++ [TEvent.optStep]).filter
            (fun e => isBackward e || isOptStep e))
          = backEvents env ++ [TEvent.optStep] := by
        rw [List.filter_append, List.filter_append, filter_backOrOpt env]
        simp [isBackward, isOptStep]
      rw [hf, List.getLast?_append_cons]
      rfl
  · intro hle
    have : ¬ 0 < env.gas := by omega
    simp [train_iteration, this]

theorem grad_accumulation_structure_witness :
    (List.countP isBackward
      [TEvent.zeroGrad, TEvent.backward 1, TEvent.backward 1, TEvent.optStep,
        TEvent.schedStepAll] : Int) = 2 ∧
      train_iteration ⟨0, fun _ => [1], 1, 1, []⟩ = .error [TEvent.zeroGrad] :=
  ⟨((grad_accumulation_structure ⟨2, fun _ => [2], 1, 1, [0]⟩).1
      [TEvent.zeroGrad, TEvent.backward 1, TEvent.backward 1, TEvent.optStep,
        TEvent.schedStepAll] [1]
      (by
        norm_num [train_iteration, backEvents, subStepLoss, sumLosses, List.range_succ]
        rfl)).2.2.1,
    (grad_accumulation_structure ⟨0, fun _ => [1], 1, 1, []⟩).2 (by norm_num)⟩

/-! ## Trainer.__init__ (trainer.py lines 117-142)

Field assignments relevant to mixed precision and the grad scaler, in source
order: `self.device` (with `":{local_rank}"` appended for cuda),
`self.mixed_precision = self.config.mixed_precision`,
`self.use_grad_scaler = self.mixed_precision or self.config.use_grad_scaler`,
then `if self.device == "cpu": self.mixed_precision = False`, and finally
`self.grad_scaler = GradScaler(enabled=self.use_grad_scaler)`. -/

/-- The `TrainerConfig` fields read by `Trainer.__init__` for this claim. -/
structure TrainerConfigE where
  device_type : String
  mixed_precision : Bool
  use_grad_scaler : Bool
  gradient_accumulation_steps : Int

/-- The `Trainer` attributes set by `__init__`. -/
structure TrainerInit where
  device : String
  mixed_precision : Bool
  use_grad_scaler : Bool
  training_state : String
  gradient_accumulation_steps : Int
  start_step : Nat
  grad_scaler_enabled : Bool

/-- Embedding of `Trainer.__init__`. -/
def trainer_init (config : TrainerConfigE) (local_rank : Nat) : TrainerInit :=
  let device := if config.device_type = "cuda" then "cuda:" ++ toString local_rank
    else config.device_type
  let mp0 := config.mixed_precision
  let ugs := mp0 || config.use_grad_scaler
  let mp := if device = "cpu" then false else mp0
  { device := device
    mixed_precision := mp
    use_grad_scaler := ugs
    training_state := "training"
    gradient_accumulation_steps := config.gradient_accumulation_steps
    start_step := 0
    grad_scaler_enabled := ugs }

/-- C10: `Trainer.__init__` computes `use_grad_scaler` from the requested
`mixed_precision` before the CPU check forces `mixed_precision` off, so on a
CPU device with mixed precision requested the trainer ends up with
`mixed_precision == False` while the grad scaler is constructed enabled. -/
theorem cpu_mixed_precision_scaler_mismatch (config : TrainerConfigE) (local_rank : Nat)
    (hd : config.device_type = "cpu") (hm : config.mixed_precision = true) :
    (trainer_init config local_rank).mixed_precision = false ∧
    (trainer_init config local_rank).use_grad_scaler = true ∧
    (trainer_init config local_rank).grad_scaler_enabled = true := by
  have hne : ¬ config.device_type = "cuda" := by rw [hd]; decide
  simp [trainer_init, hne, hd, hm]

theorem cpu_mixed_precision_scaler_mismatch_witness :
    (trainer_init ⟨"cpu", true, false, 1⟩ 0).mixed_precision = false ∧
    (trainer_init ⟨"cpu", true, false, 1⟩ 0).use_grad_scaler = true ∧
    (trainer_init ⟨"cpu", true, false, 1⟩ 0).grad_scaler_enabled = true :=
  cpu_mixed_precision_scaler_mismatch ⟨"cpu", true, false, 1⟩ 0 rfl rfl

/-! ## Trainer.train loop: rays/sec telemetry (trainer.py lines 244, 266-275)

`for step in range(self._start_step, self._start_step + num_iterations)` with
`if step > 1: writer.put_time(name=EventName.TRAIN_RAYS_PER_SEC, ...)`. -/

/-- The step indices visited by the training loop. -/
def loopSteps (startStep numIterations : Nat) : List Nat :=
  (List.range numIterations).map (startStep + ·)

/-- The step indices at which the TRAIN_RAYS_PER_SEC event is emitted. -/
def raysPerSecEmitted (startStep numIterations : Nat) : List Nat :=
  (loopSteps startStep numIterations).filter (fun s => decide (1 < s))

/-- C6: in every run of the training loop — `startStep` is arbitrary, covering
runs resumed from a checkpoint — the rays/sec telemetry event is never emitted
at step index 0 or 1, and it is emitted at every visited later step. -/
theorem rate_metric_exclusion (startStep numIterations : Nat) :
    0 ∉ raysPerSecEmitted startStep numIterations ∧
    1 ∉ raysPerSecEmitted startStep numIterations ∧
    ∀ s ∈ loopSteps startStep numIterations, 1 < s →
      s ∈ raysPerSecEmitted startStep numIterations := by
  refine ⟨?_, ?_, ?_⟩
  · intro h
    rcases List.mem_filter.mp h with ⟨-, hp⟩
    simp at hp
  · intro h
    rcases List.mem_filter.mp h with ⟨-, hp⟩
    simp at hp
  · intro s hs h1
    exact List.mem_filter.mpr ⟨hs, by simpa using h1⟩

theorem rate_metric_exclusion_witness : 2 ∈ raysPerSecEmitted 0 5 :=
  (rate_metric_exclusion 0 5).2.2 2 (by decide) (by decide)

/-! ## Trainer._update_viewer_state (trainer.py lines 525-539)

```
try:
    self.viewer_state.update_scene(step, num_rays_per_batch)
except RuntimeError:
    time.sleep(0.03)  # sleep to allow buffer to reset
    CONSOLE.log("Viewer failed. Continuing training.")
```

Python exceptions are embedded with their relevant distinction: whether the
raised exception is a `RuntimeError` (the only class the handler names) or an
instance of any other exception class. -/

/-- Kind of exception raised by `viewer_state.update_scene`. -/
inductive PyExc where
  | runtimeError : PyExc
  | otherExc : PyExc
deriving DecidableEq

/-- Observable outcome of `_update_viewer_state` when it returns normally. -/
inductive ViewerOutcome where
  | updated : ViewerOutcome
  | warnedAndSlept : ViewerOutcome
deriving DecidableEq

/-- Embedding of `Trainer._update_viewer_state`, parameterized by the result
of the `update_scene` call. -/
def update_viewer_state (updateSceneResult : Except PyExc Unit) : Except PyExc ViewerOutcome :=
  match updateSceneResult with
  | .ok _ => .ok .updated
  | .error .runtimeError => .ok .warnedAndSlept
  | .error e => .error e

/-- C7 counterexample: a viewer failure that is not a `RuntimeError` is not
caught by `_update_viewer_state` and propagates out of the control loop,
refuting "any failure raised by the viewer ... is caught". -/
theorem viewer_failure_propagates_counterexample :
    update_viewer_state (.error .otherExc) = .error .otherExc := rfl

/-- C7 amended: `_update_viewer_state` catches exactly the `RuntimeError`
failures of `update_scene`, converting them into the logged-warning +
fixed-backoff-sleep outcome; failures of any other exception class propagate. -/
theorem viewer_runtime_error_caught (r : Except PyExc Unit) :
    (r = .error .runtimeError → update_viewer_state r = .ok .warnedAndSlept) ∧
    (r = .error .otherExc → update_viewer_state r = .error .otherExc) ∧
    (r ≠ .error .otherExc → ∀ e, update_viewer_state r ≠ .error e) := by
  rcases r with e | ⟨⟩
  · cases e
    · exact ⟨fun _ => rfl, fun h => PyExc.noConfusion (Except.error.inj h),
        fun _ e h => Except.noConfusion h⟩
    · exact ⟨fun h => PyExc.noConfusion (Except.error.inj h), fun _ => rfl,
        fun hne _ _ => absurd rfl hne⟩
  · exact ⟨fun h => Except.noConfusion h, fun h => Except.noConfusion h,
      fun _ e h => Except.noConfusion h⟩

theorem viewer_runtime_error_caught_witness :
    update_viewer_state (.error .runtimeError) = .ok .warnedAndSlept :=
  (viewer_runtime_error_caught (.error .runtimeError)).1 rfl

/-! ## Checkpoint file names

`f"step-{step:09d}.ckpt"` (trainer.py lines 582 and 618): the decimal digits
of the step, left-padded with `'0'` to at least 9 characters.  Decimal
rendering is embedded with an explicit fuel argument so that it is structural
and kernel-evaluable. -/

/-- The character for decimal digit `n`. -/
def digitChar (n : Nat) : Char := Char.ofNat (48 + n)

def natDigitsAux : Nat → Nat → List Char
  | 0, _ => []
  | fuel + 1, n =>
    if n < 10 then [digitChar n]
    else natDigitsAux fuel (n / 10) ++ [digitChar (n % 10)]

/-- The decimal digit characters of `n` (most significant first). -/
def natDigits (n : Nat) : List Char := natDigitsAux (n + 1) n

theorem natDigitsAux_fuel (n : Nat) : ∀ fuel, n < fuel → natDigitsAux fuel n = natDigits n := by
  induction n using Nat.strong_induction_on with
  | _ n ih =>
    intro fuel h
    cases fuel with
    | zero => omega
    | succ f =>
      by_cases h10 : n < 10
      · simp [natDigitsAux, natDigits, h10]
      · have hdiv : n / 10 < n := Nat.div_lt_self (by omega) (by omega)
        have h1 : natDigitsAux f (n / 10) = natDigits (n / 10) := ih (n / 10) hdiv f (by omega)
        have h2 : natDigitsAux n (n / 10) = natDigits (n / 10) := ih (n / 10) hdiv n (by omega)
        show natDigitsAux (f + 1) n = natDigitsAux (n + 1) n
        rw [show natDigitsAux (f + 1) n = natDigitsAux f (n / 10) ++ [digitChar (n % 10)] from
            by simp [natDigitsAux, h10],
          show natDigitsAux (n + 1) n = natDigitsAux n (n / 10) ++ [digitChar (n % 10)] from
            by simp [natDigitsAux, h10],
          h1, h2]

theorem natDigits_eq (n : Nat) :
    natDigits n = if n < 10 then [digitChar n] else natDigits (n / 10) ++ [digitChar (n % 10)] := by
  by_cases h10 : n < 10
  · simp [natDigits, natDigitsAux, h10]
  · rw [if_neg h10]
    show natDigitsAux (n + 1) n = _
    rw [show natDigitsAux (n + 1) n = natDigitsAux n (n / 10) ++ [digitChar (n % 10)] from
        by simp [natDigitsAux, h10],
      natDigitsAux_fuel (n / 10) n (by omega)]

theorem digitChar_toNat (k : Nat) (h : k < 10) : (digitChar k).toNat = 48 + k := by
  interval_cases k <;> decide

theorem mem_natDigits (n : Nat) : ∀ c ∈ natDigits n, ∃ k, k < 10 ∧ c = digitChar k := by
  induction n using Nat.strong_induction_on with
  | _ n ih =>
    intro c hc
    rw [natDigits_eq] at hc
    by_cases h10 : n < 10
    · rw [if_pos h10] at hc
      simp at hc
      exact ⟨n, h10, hc⟩
    · rw [if_neg h10] at hc
      rcases List.mem_append.mp hc with hc | hc
      · exact ih (n / 10) (Nat.div_lt_self (by omega) (by omega)) c hc
      · simp at hc
        exact ⟨n % 10, Nat.mod_lt _ (by omega), hc⟩

/-- Embedding of `int(...)` applied to a string of decimal digit characters. -/
def strToNat (s : List Char) : Nat := s.foldl (fun a c => a * 10 + (c.toNat - 48)) 0

theorem strToNat_append_singleton (s : List Char) (c : Char) :
    strToNat (s ++ [c]) = strToNat s * 10 + (c.toNat - 48) := by
  simp [strToNat, List.foldl_append]

theorem foldl_digits_replicate_zero (k : Nat) :
    (List.replicate k '0').foldl (fun a c => a * 10 + (c.toNat - 48)) 0 = 0 := by
  induction k with
  | zero => rfl
  | succ k ih =>
    rw [List.replicate_succ, List.foldl_cons]
    exact ih

theorem strToNat_replicate_append (k : Nat) (s : List Char) :
    strToNat (List.replicate k '0' ++ s) = strToNat s := by
  unfold strToNat
  rw [List.foldl_append, foldl_digits_replicate_zero]

theorem strToNat_natDigits (n : Nat) : strToNat (natDigits n) = n := by
  induction n using Nat.strong_induction_on with
  | _ n ih =>
    rw [natDigits_eq]
    by_cases h10 : n < 10
    · rw [if_pos h10]
      have : strToNat [digitChar n] = 0 * 10 + ((digitChar n).toNat - 48) := rfl
      rw [this, digitChar_toNat n h10]
      omega
    · rw [if_neg h10, strToNat_append_singleton,
        ih (n / 10) (Nat.div_lt_self (by omega) (by omega)),
        digitChar_toNat (n % 10) (Nat.mod_lt _ (by omega))]
      omega

/-- Python `str.zfill`-style left zero-padding used by the `{:09d}` format. -/
def zfill (w : Nat) (s : List Char) : List Char := List.replicate (w - s.length) '0' ++ s

/-- The checkpoint filename `f"step-{step:09d}.ckpt"`. -/
def ckptName (step : Nat) : PyStr := "step-".data ++ (zfill 9 (natDigits step) ++ ".ckpt".data)

theorem strToNat_zfill_natDigits (w n : Nat) : strToNat (zfill w (natDigits n)) = n := by
  rw [zfill, strToNat_replicate_append, strToNat_natDigits]

/-! ## Trainer.save_checkpoint (trainer.py lines 607-636)

The checkpoint directory is a list of filenames.  `torch.save` writes
`step-{step:09d}.ckpt`; then, when `save_only_latest_checkpoint` is set,
`for f in self.checkpoint_dir.glob("*"): if f != ckpt_path: f.unlink()`. -/

/-- A filesystem operation performed by `save_checkpoint`. -/
inductive FsOp where
  | write : PyStr → FsOp
  | unlink : PyStr → FsOp
deriving DecidableEq

/-- Embedding of `Trainer.save_checkpoint`: returns the ordered trace of
filesystem operations and the directory contents afterwards. -/
def save_checkpoint (latestOnly : Bool) (step : Nat) (dir : List PyStr) :
    List FsOp × List PyStr :=
  let name := ckptName step
  let dir1 := if name ∈ dir then dir else dir ++ [name]
  if latestOnly then
    (FsOp.write name :: (dir1.filter (· ≠ name)).map FsOp.unlink, dir1.filter (· = name))
  else ([FsOp.write name], dir1)

theorem filter_eq_singleton_of_nodup (l : List PyStr) (a : PyStr) (hnd : l.Nodup)
    (ha : a ∈ l) : l.filter (· = a) = [a] := by
  induction l with
  | nil => cases ha
  | cons b l ih =>
    rcases List.nodup_cons.mp hnd with ⟨hb, hl⟩
    rcases List.mem_cons.mp ha with rfl | ha'
    · have h1 : l.filter (· = a) = [] := by
        refine List.filter_eq_nil_iff.mpr ?_
        intro x hx
        simp only [decide_eq_true_eq]
        intro hxa
        exact hb (hxa ▸ hx)
      simp [List.filter_cons, h1]
    · have hba : ¬ (b = a) := fun h => hb (h ▸ ha')
      simp [List.filter_cons, hba, ih hl ha']

theorem save_checkpoint_dir (st : Nat) (dir : List PyStr) (hnd : dir.Nodup) :
    (save_checkpoint true st dir).2 = [ckptName st] := by
  unfold save_checkpoint
  by_cases hmem : ckptName st ∈ dir
  · simp only [if_pos hmem, if_pos rfl]
    exact filter_eq_singleton_of_nodup dir _ hnd hmem
  · simp only [if_neg hmem, if_pos rfl]
    have hnd1 : (dir ++ [ckptName st]).Nodup := by
      simp [List.nodup_append, hnd, hmem]
    exact filter_eq_singleton_of_nodup _ _ hnd1 (by simp)

theorem saveMany_getLast (steps : List Nat) :
    ∀ dir : List PyStr, dir.Nodup → ∀ lastStep, steps.getLast? = some lastStep →
      steps.foldl (fun d st => (save_checkpoint true st d).2) dir = [ckptName lastStep] := by
  induction steps with
  | nil =>
    intro dir _ lastStep h
    cases h
  | cons st rest ih =>
    intro dir hnd lastStep h
    simp only [List.foldl_cons]
    rw [save_checkpoint_dir st dir hnd]
    cases rest with
    | nil =>
      simp only [List.getLast?_singleton, Option.some.injEq] at h
      subst h
      rfl
    | cons r rs =>
      rw [List.getLast?_cons_cons] at h
      exact ih [ckptName st] (List.nodup_singleton _) lastStep h

/-- C3: with `save_only_latest_checkpoint`, `save_checkpoint step` first writes
the file named by the zero-padded step, every deletion in the operation trace
comes strictly after that write, the directory afterwards holds exactly that
one file, and after any nonempty sequence of consecutive saves the directory
holds exactly one file, the one named by the most recent step. -/
theorem checkpoint_retention (step : Nat) (dir : List PyStr) (hnd : dir.Nodup) :
    ((save_checkpoint true step dir).1).head? = some (FsOp.write (ckptName step)) ∧
    (∀ i f, ((save_checkpoint true step dir).1).get? i = some (FsOp.unlink f) → 0 < i) ∧
    (save_checkpoint true step dir).2 = [ckptName step] ∧
    (∀ (steps : List Nat) (lastStep : Nat), steps.getLast? = some lastStep →
      steps.foldl (fun d st => (save_checkpoint true st d).2) dir = [ckptName lastStep]) := by
  have h1 : (save_checkpoint true step dir).1
      = FsOp.write (ckptName step) ::
        (((if ckptName step ∈ dir then dir else dir ++ [ckptName step]).filter
          (· ≠ ckptName step)).map FsOp.unlink) := by
    simp [save_checkpoint]
  refine ⟨by rw [h1]; rfl, ?_, save_checkpoint_dir step dir hnd,
    fun steps lastStep h => saveMany_getLast steps dir hnd lastStep h⟩
  intro i f hif
  cases i with
  | zero =>
    rw [h1] at hif
    simp only [List.get?_cons_zero, Option.some.injEq] at hif
    exact FsOp.noConfusion hif
  | succ j => omega

theorem checkpoint_retention_witness :
    (save_checkpoint true 500 ["old".data]).2 = [ckptName 500] ∧
      ckptName 500 = "step-000000500.ckpt".data :=
  ⟨(checkpoint_retention 500 ["old".data] (List.nodup_singleton _)).2.2.1, by decide⟩

/-! ## Trainer.derive_nsa (trainer.py lines 464-498)

Scalars are embedded as `ℚ`; 3-vectors as `Vec3`.  The plane is
`a·x + b·y + c·z + d = 0`, the box is given by 8 vertices indexed 0-7 and
three axis direction vectors, and the 12 edges are the three
axis-direction groups of 4 from the `edges` dict, in iteration order. -/

structure Vec3 where
  x : ℚ
  y : ℚ
  z : ℚ
deriving DecidableEq

def vadd (u v : Vec3) : Vec3 := ⟨u.x + v.x, u.y + v.y, u.z + v.z⟩

def vsmul (t : ℚ) (v : Vec3) : Vec3 := ⟨t * v.x, t * v.y, t * v.z⟩

inductive Axis where
  | x : Axis
  | y : Axis
  | z : Axis
deriving DecidableEq

/-- The `edges` dict of `derive_nsa`: direction tag and (start, end) vertex
indices, in Python dict iteration order. -/
def edges : List (Axis × Nat × Nat) :=
  [(Axis.x, 0, 4), (Axis.x, 1, 5), (Axis.x, 2, 6), (Axis.x, 3, 7),
   (Axis.y, 0, 2), (Axis.y, 1, 3), (Axis.y, 4, 6), (Axis.y, 5, 7),
   (Axis.z, 0, 1), (Axis.z, 2, 3), (Axis.z, 4, 5), (Axis.z, 6, 7)]

/-- The directional vector chosen for an edge's axis tag. -/
def axisDir (x_dir y_dir z_dir : Vec3) : Axis → Vec3
  | .x => x_dir
  | .y => y_dir
  | .z => z_dir

/-- The plane equation's value `a·vx + b·vy + c·vz + d` at a point. -/
def planeEval (a b c d : ℚ) (v : Vec3) : ℚ := a * v.x + b * v.y + c * v.z + d

/-- The denominator of the `t` computation for an edge with direction `dir`:
`a * directional_vector[0] + b * directional_vector[1] + c * directional_vector[2]`. -/
def edgeDenom (a b c : ℚ) (dir : Vec3) : ℚ := a * dir.x + b * dir.y + c * dir.z

/-- The edge parameter `t = -(a*sx + b*sy + c*sz + d) / (a*dx + b*dy + c*dz)`. -/
def edgeParam (a b c d : ℚ) (vertices : Nat → Vec3) (x_dir y_dir z_dir : Vec3)
    (e : Axis × Nat × Nat) : ℚ :=
  -(planeEval a b c d (vertices e.2.1)) / edgeDenom a b c (axisDir x_dir y_dir z_dir e.1)

/-- The point `starting_vertex + t * directional_vector` for an edge. -/
def edgePoint (a b c d : ℚ) (vertices : Nat → Vec3) (x_dir y_dir z_dir : Vec3)
    (e : Axis × Nat × Nat) : Vec3 :=
  vadd (vertices e.2.1)
    (vsmul (edgeParam a b c d vertices x_dir y_dir z_dir e) (axisDir x_dir y_dir z_dir e.1))

/-- The condition `0 <= t <= 1`: the edge intersects the plane within the segment. -/
abbrev edgeCross (a b c d : ℚ) (vertices : Nat → Vec3) (x_dir y_dir z_dir : Vec3)
    (e : Axis × Nat × Nat) : Prop :=
  0 ≤ edgeParam a b c d vertices x_dir y_dir z_dir e ∧
    edgeParam a b c d vertices x_dir y_dir z_dir e ≤ 1

/-- Embedding of `Trainer.derive_nsa`. -/
def derive_nsa (a b c d : ℚ) (vertices : Nat → Vec3) (x_dir y_dir z_dir : Vec3) : List Vec3 :=
  edges.filterMap (fun e =>
    if edgeCross a b c d vertices x_dir y_dir z_dir e then
      some (edgePoint a b c d vertices x_dir y_dir z_dir e)
    else none)

/-- One of the three edge directions makes the `t` denominator vanish: the
division in `derive_nsa` is a division by zero for the corresponding edges. -/
def derive_nsa_hasZeroDenom (a b c : ℚ) (x_dir y_dir z_dir : Vec3) : Prop :=
  edgeDenom a b c x_dir = 0 ∨ edgeDenom a b c y_dir = 0 ∨ edgeDenom a b c z_dir = 0

theorem planeEval_vadd_smul (a b c d t : ℚ) (sv dir : Vec3) :
    planeEval a b c d (vadd sv (vsmul t dir)) =
      planeEval a b c d sv + t * edgeDenom a b c dir := by
  simp only [planeEval, vadd, vsmul, edgeDenom]
  ring

theorem planeEval_vadd (a b c d : ℚ) (sv dir : Vec3) :
    planeEval a b c d (vadd sv dir) = planeEval a b c d sv + edgeDenom a b c dir := by
  simp only [planeEval, vadd, edgeDenom]
  ring

theorem edgeCross_not_of_same_side (a b c d : ℚ) (sv dir : Vec3)
    (hden : edgeDenom a b c dir ≠ 0)
    (hside : (0 < planeEval a b c d sv ∧ 0 < planeEval a b c d (vadd sv dir)) ∨
      (planeEval a b c d sv < 0 ∧ planeEval a b c d (vadd sv dir) < 0)) :
    ¬ (0 ≤ -(planeEval a b c d sv) / edgeDenom a b c dir ∧
        -(planeEval a b c d sv) / edgeDenom a b c dir ≤ 1) := by
  rintro ⟨ht0, ht1⟩
  set A := planeEval a b c d sv with hA
  set D := edgeDenom a b c dir with hD
  set t := -A / D with ht
  have hAtD : A + t * D = 0 := by
    rw [ht, div_mul_cancel₀ (-A) hden]
    ring
  have key : (1 - t) * A + t * (A + D) = 0 := by linear_combination hAtD
  rw [planeEval_vadd, ← hA, ← hD] at hside
  rcases hside with ⟨hA0, hAD⟩ | ⟨hA0, hAD⟩
  · have h1 : 0 ≤ (1 - t) * A := mul_nonneg (by linarith) hA0.le
    have h2 : 0 ≤ t * (A + D) := mul_nonneg ht0 hAD.le
    have h4 : t * (A + D) = 0 := by linarith
    rcases mul_eq_zero.mp h4 with ht0' | hval
    · rw [ht0'] at hAtD
      simp at hAtD
      linarith
    · linarith
  · have h1 : (1 - t) * A ≤ 0 := mul_nonpos_of_nonneg_of_nonpos (by linarith) hA0.le
    have h2 : t * (A + D) ≤ 0 := mul_nonpos_of_nonneg_of_nonpos ht0 hAD.le
    have h4 : t * (A + D) = 0 := by linarith
    rcases mul_eq_zero.mp h4 with ht0' | hval
    · rw [ht0'] at hAtD
      simp at hAtD
      linarith
    · linarith

theorem filterMap_eq_singleton_of_unique {α β : Type} (l : List α) (f : α → Option β)
    (a0 : α) (b0 : β) (hnd : l.Nodup) (ha : a0 ∈ l) (hf : f a0 = some b0)
    (hother : ∀ x ∈ l, x ≠ a0 → f x = none) :
    l.filterMap f = [b0] := by
  induction l with
  | nil => cases ha
  | cons hd tl ih =>
    rcases List.nodup_cons.mp hnd with ⟨hhd, htl⟩
    rcases List.mem_cons.mp ha with rfl | ha'
    · rw [List.filterMap_cons_some hf]
      have hnil : tl.filterMap f = [] := by
        refine List.filterMap_eq_nil_iff.mpr ?_
        intro x hx
        exact hother x (List.mem_cons_of_mem _ hx) (fun h => hhd (h ▸ hx))
      rw [hnil]
    · have hfhd : f hd = none :=
        hother hd (List.mem_cons_self _ _) (fun h => hhd (h ▸ ha'))
      rw [List.filterMap_cons_none hfhd]
      exact ih htl ha' (fun x hx hne => hother x (List.mem_cons_of_mem _ hx) hne)

theorem planeEval_edgePoint (a b c d : ℚ) (vertices : Nat → Vec3) (x_dir y_dir z_dir : Vec3)
    (e : Axis × Nat × Nat) (hD : edgeDenom a b c (axisDir x_dir y_dir z_dir e.1) ≠ 0) :
    planeEval a b c d (edgePoint a b c d vertices x_dir y_dir z_dir e) = 0 := by
  rw [edgePoint, planeEval_vadd_smul, edgeParam, div_mul_cancel₀ _ hD]
  ring

/-- C5: `derive_nsa` examines exactly the 12 edges (4 per axis direction),
returns at most 12 points, every returned point lies on the plane and is the
analytic intersection `start_vertex + t * direction` of an edge with
`0 ≤ t ≤ 1`; when exactly one edge crosses the plane the result is exactly
that one analytic intersection point, and for a (consistent) box lying
strictly on one side of the plane the result is empty.  The hypothesis `hden`
requires the `t` divisions to be well defined (no edge direction parallel to
the plane, cf. C9). -/
theorem derive_nsa_edge_intersections (a b c d : ℚ) (vertices : Nat → Vec3)
    (x_dir y_dir z_dir : Vec3)
    (hden : ∀ e ∈ edges, edgeDenom a b c (axisDir x_dir y_dir z_dir e.1) ≠ 0) :
    (edges.length = 12 ∧
      edges.countP (fun e => e.1 = Axis.x) = 4 ∧
      edges.countP (fun e => e.1 = Axis.y) = 4 ∧
      edges.countP (fun e => e.1 = Axis.z) = 4) ∧
    (derive_nsa a b c d vertices x_dir y_dir z_dir).length ≤ 12 ∧
    (∀ p ∈ derive_nsa a b c d vertices x_dir y_dir z_dir, planeEval a b c d p = 0) ∧
    (∀ p, p ∈ derive_nsa a b c d vertices x_dir y_dir z_dir ↔
      ∃ e ∈ edges, edgeCross a b c d vertices x_dir y_dir z_dir e ∧
        p = edgePoint a b c d vertices x_dir y_dir z_dir e) ∧
    (∀ e0 ∈ edges, edgeCross a b c d vertices x_dir y_dir z_dir e0 →
      (∀ e ∈ edges, edgeCross a b c d vertices x_dir y_dir z_dir e → e = e0) →
      derive_nsa a b c d vertices x_dir y_dir z_dir
        = [edgePoint a b c d vertices x_dir y_dir z_dir e0]) ∧
    ((∀ e ∈ edges, vertices e.2.2 = vadd (vertices e.2.1) (axisDir x_dir y_dir z_dir e.1)) →
      ((∀ i, i < 8 → 0 < planeEval a b c d (vertices i)) ∨
        (∀ i, i < 8 → planeEval a b c d (vertices i) < 0)) →
      derive_nsa a b c d vertices x_dir y_dir z_dir = []) := by
  have hmem : ∀ p, p ∈ derive_nsa a b c d vertices x_dir y_dir z_dir ↔
      ∃ e ∈ edges, edgeCross a b c d vertices x_dir y_dir z_dir e ∧
        p = edgePoint a b c d vertices x_dir y_dir z_dir e := by
    intro p
    simp only [derive_nsa, List.mem_filterMap]
    constructor
    · rintro ⟨e, he, hfe⟩
      by_cases hc : edgeCross a b c d vertices x_dir y_dir z_dir e
      · rw [if_pos hc] at hfe
        exact ⟨e, he, hc, (Option.some.inj hfe).symm⟩
      · rw [if_neg hc] at hfe
        cases hfe
    · rintro ⟨e, he, hc, rfl⟩
      exact ⟨e, he, by rw [if_pos hc]⟩
  refine ⟨⟨rfl, rfl, rfl, rfl⟩, ?_, ?_, hmem, ?_, ?_⟩
  · exact le_trans (List.length_filterMap_le _ _) (by decide)
  · intro p hp
    obtain ⟨e, he, -, rfl⟩ := (hmem p).mp hp
    exact planeEval_edgePoint a b c d vertices x_dir y_dir z_dir e (hden e he)
  · intro e0 he0 hc0 huniq
    refine filterMap_eq_singleton_of_unique edges _ e0 _ (by decide) he0 (if_pos hc0) ?_
    intro e he hne
    rw [if_neg (fun hc => hne (huniq e he hc))]
  · intro hbox hside
    refine List.filterMap_eq_nil_iff.mpr ?_
    intro e he
    rw [if_neg]
    have hidx : ∀ e ∈ edges, e.2.1 < 8 ∧ e.2.2 < 8 := by decide
    have hD := hden e he
    refine edgeCross_not_of_same_side a b c d (vertices e.2.1)
      (axisDir x_dir y_dir z_dir e.1) hD ?_
    rcases hside with hpos | hneg
    · exact Or.inl ⟨hpos _ (hidx e he).1, by rw [← hbox e he]; exact hpos _ (hidx e he).2⟩
    · exact Or.inr ⟨hneg _ (hidx e he).1, by rw [← hbox e he]; exact hneg _ (hidx e he).2⟩

theorem derive_nsa_edge_intersections_witness :
    derive_nsa 1 1 1 (-10)
      (fun i => ⟨((i / 4 % 2 : Nat) : ℚ), ((i / 2 % 2 : Nat) : ℚ), ((i % 2 : Nat) : ℚ)⟩)
      ⟨1, 0, 0⟩ ⟨0, 1, 0⟩ ⟨0, 0, 1⟩ = [] :=
  (derive_nsa_edge_intersections 1 1 1 (-10)
    (fun i => ⟨((i / 4 % 2 : Nat) : ℚ), ((i / 2 % 2 : Nat) : ℚ), ((i % 2 : Nat) : ℚ)⟩)
    ⟨1, 0, 0⟩ ⟨0, 1, 0⟩ ⟨0, 0, 1⟩
    (by
      intro e he
      simp only [edges] at he
      fin_cases he <;> norm_num [edgeDenom, axisDir])).2.2.2.2.2
    (by
      intro e he
      simp only [edges] at he
      fin_cases he <;> norm_num [vadd, axisDir, Vec3.mk.injEq])
    (Or.inr (by
      intro i hi
      interval_cases i <;> norm_num [planeEval]))

/-- C9: the `t` computation in `derive_nsa` divides by
`a*dx + b*dy + c*dz` with no guard; for a plane and box with an edge
direction parallel to the plane (e.g. the horizontal plane `z = 0` versus the
x-direction `(1,0,0)`) that denominator is zero, so the division is a
division by zero rather than the edge being skipped; and the denominators of
all 12 edges are nonzero exactly under the precondition that no edge
direction is parallel to the plane. -/
theorem derive_nsa_division_by_zero :
    edgeDenom 0 0 1 ⟨1, 0, 0⟩ = 0 ∧
    derive_nsa_hasZeroDenom 0 0 1 ⟨1, 0, 0⟩ ⟨0, 1, 0⟩ ⟨0, 0, 1⟩ ∧
    (∀ (a b c : ℚ) (x_dir y_dir z_dir : Vec3),
      ¬ derive_nsa_hasZeroDenom a b c x_dir y_dir z_dir →
      ∀ e ∈ edges, edgeDenom a b c (axisDir x_dir y_dir z_dir e.1) ≠ 0) := by
  refine ⟨by norm_num [edgeDenom], Or.inl (by norm_num [edgeDenom]), ?_⟩
  intro a b c xd yd zd h e he hz
  apply h
  rcases e with ⟨ax, i, j⟩
  cases ax
  · exact Or.inl hz
  · exact Or.inr (Or.inl hz)
  · exact Or.inr (Or.inr hz)

/-! ## Trainer._load_checkpoint (trainer.py lines 572-605)

`load_step = sorted(int(x[x.find("-") + 1 : x.find(".")]) for x in
os.listdir(load_dir))[-1]`, then `load_path = load_dir / f"step-{load_step:09d}.ckpt"`,
`assert load_path.exists()`, `loaded_state = torch.load(load_path)`,
`self._start_step = loaded_state["step"] + 1`, restores pipeline, optimizers,
schedulers (only when the key is present and `config.load_scheduler` is set)
and the grad scaler; the `load_checkpoint` branch is identical with an
explicit file; with neither configured, training starts from scratch. -/

/-- The slice `x[x.find("-") + 1 : x.find(".")]`: the substring between the first
`'-'` and the first `'.'`. -/
def extractStepStr (x : PyStr) : PyStr :=
  let i := x.findIdx (· = '-')
  let j := x.findIdx (· = '.')
  (x.drop (i + 1)).take (j - (i + 1))

/-- Embedding of `int(x[x.find("-") + 1 : x.find(".")])`. -/
def extractStep (x : PyStr) : Nat := strToNat (extractStepStr x)

/-- Embedding of `sorted(l)[-1]`: last element of the ascending sort. -/
def pySortedLast (l : List Nat) : Option Nat :=
  (l.mergeSort (fun a b => decide (a ≤ b))).getLast?

theorem findIdx_append_of_none (p : Char → Bool) (l₁ l₂ : List Char)
    (h : ∀ a ∈ l₁, p a = false) :
    (l₁ ++ l₂).findIdx p = l₁.length + l₂.findIdx p := by
  induction l₁ with
  | nil => simp
  | cons a l ih =>
    have ha := h a (List.mem_cons_self a l)
    simp only [List.cons_append, List.findIdx_cons, ha, cond_false]
    rw [ih (fun x hx => h x (List.mem_cons_of_mem _ hx))]
    simp [List.length_cons]
    omega

theorem zfill_natDigits_chars (n : Nat) :
    ∀ c ∈ zfill 9 (natDigits n), c ≠ '.' ∧ c ≠ '-' := by
  intro c hc
  rcases List.mem_append.mp hc with hc | hc
  · rw [List.eq_of_mem_replicate hc]
    exact ⟨by decide, by decide⟩
  · obtain ⟨k, hk, rfl⟩ := mem_natDigits n c hc
    interval_cases k <;> exact ⟨by decide, by decide⟩

theorem extractStepStr_ckptName (s : Nat) :
    extractStepStr (ckptName s) = zfill 9 (natDigits s) := by
  have hi : (ckptName s).findIdx (fun c => decide (c = '-')) = 4 := rfl
  have hj : (ckptName s).findIdx (fun c => decide (c = '.'))
      = 5 + (zfill 9 (natDigits s)).length := by
    rw [ckptName]
    rw [findIdx_append_of_none _ _ _ (by decide)]
    rw [findIdx_append_of_none _ _ _
      (fun a ha => decide_eq_false (zfill_natDigits_chars s a ha).1)]
    have h0 : List.findIdx (fun c => decide (c = '.')) ".ckpt".data = 0 := rfl
    rw [h0]
    rfl
  have hdrop : (ckptName s).drop 5 = zfill 9 (natDigits s) ++ ".ckpt".data := by
    rw [ckptName]
    exact List.drop_left "step-".data (zfill 9 (natDigits s) ++ ".ckpt".data)
  simp only [extractStepStr, hi, hj]
  have harith : 5 + (zfill 9 (natDigits s)).length - (4 + 1) = (zfill 9 (natDigits s)).length := by
    omega
  rw [show (4 + 1 : Nat) = 5 from rfl, harith, hdrop]
  exact List.take_left (zfill 9 (natDigits s)) ".ckpt".data

theorem extractStep_ckptName (s : Nat) : extractStep (ckptName s) = s := by
  rw [extractStep, extractStepStr_ckptName, strToNat_zfill_natDigits]

theorem map_extractStep_ckptName (steps : List Nat) :
    (steps.map ckptName).map extractStep = steps := by
  rw [List.map_map]
  have h : extractStep ∘ ckptName = id := funext fun s => extractStep_ckptName s
  rw [h, List.map_id]

theorem le_getLast_of_sorted :
    ∀ (l : List Nat), l.Sorted (· ≤ ·) → ∀ m, l.getLast? = some m → ∀ x ∈ l, x ≤ m := by
  intro l
  induction l with
  | nil =>
    intro _ m hm
    cases hm
  | cons a l ih =>
    intro hs m hm x hx
    cases l with
    | nil =>
      simp only [List.getLast?_singleton, Option.some.injEq] at hm
      simp only [List.mem_singleton] at hx
      omega
    | cons b l2 =>
      rw [List.getLast?_cons_cons] at hm
      rcases List.mem_cons.mp hx with rfl | hx'
      · have hmm : m ∈ b :: l2 := by
          obtain ⟨hne, heq⟩ := List.mem_getLast?_eq_getLast (Option.mem_def.mpr hm)
          rw [heq]
          exact List.getLast_mem hne
        exact List.rel_of_sorted_cons hs m hmm
      · exact ih hs.of_cons m hm x hx'

theorem pySortedLast_max (l : List Nat) (hne : l ≠ []) :
    ∃ m, pySortedLast l = some m ∧ m ∈ l ∧ ∀ x ∈ l, x ≤ m := by
  have hperm := List.mergeSort_perm l (fun a b => decide (a ≤ b))
  have hsorted : (l.mergeSort (fun a b => decide (a ≤ b))).Sorted (· ≤ ·) :=
    List.sorted_mergeSort' l
  have hlen : l.mergeSort (fun a b => decide (a ≤ b)) ≠ [] := by
    intro h
    apply hne
    have := hperm.length_eq
    rw [h] at this
    exact List.eq_nil_of_length_eq_zero this.symm
  obtain ⟨m, hm⟩ := Option.isSome_iff_exists.mp
    (by rwa [List.getLast?_isSome] : (l.mergeSort (fun a b => decide (a ≤ b))).getLast?.isSome)
  refine ⟨m, hm, ?_, ?_⟩
  · have : m ∈ l.mergeSort (fun a b => decide (a ≤ b)) := by
      obtain ⟨h1, h2⟩ := List.mem_getLast?_eq_getLast (Option.mem_def.mpr hm)
      rw [h2]
      exact List.getLast_mem h1
    exact hperm.mem_iff.mp this
  · intro x hx
    exact le_getLast_of_sorted _ hsorted m hm x (hperm.mem_iff.mpr hx)

/-- The compound checkpoint record `{step, pipeline, optimizers, schedulers,
scalers}`; the `schedulers` key may be absent. -/
structure Checkpoint (P O S G : Type) where
  step : Nat
  pipeline : P
  optimizers : O
  schedulers : Option S
  scalers : G

/-- The `TrainerConfig` fields read by `_load_checkpoint`. -/
structure LoadConfig where
  load_dir : Option PyStr
  load_step : Option Nat
  load_checkpoint : Option PyStr
  load_scheduler : Bool

/-- The filesystem as seen by `_load_checkpoint`: `os.listdir(load_dir)` and
`torch.load` at a path. -/
structure LoadFS (P O S G : Type) where
  listing : List PyStr
  read : PyStr → Option (Checkpoint P O S G)

/-- The path `load_dir / name`. -/
def pathJoin (dir name : PyStr) : PyStr := dir ++ ('/' :: name)

/-- The trainer state produced by `_load_checkpoint`. -/
structure LoadOutcome (P O S G : Type) where
  start_step : Nat
  pipeline_loaded : Option (P × Nat)
  optimizers_loaded : Option O
  schedulers_loaded : Option S
  scalers_loaded : Option G

inductive LoadErr where
  | missingFile : PyStr → LoadErr
  | emptyDir : LoadErr

/-- The state restored on a successful load: `_start_step = step + 1`,
`load_pipeline(state, step)`, `load_optimizers`, `load_schedulers` only when
the key is present and `config.load_scheduler` is set, and the scaler. -/
def loadedOutcome {P O S G : Type} (cfg : LoadConfig) (ck : Checkpoint P O S G) :
    LoadOutcome P O S G :=
  { start_step := ck.step + 1
    pipeline_loaded := some (ck.pipeline, ck.step)
    optimizers_loaded := some ck.optimizers
    schedulers_loaded := if cfg.load_scheduler then ck.schedulers else none
    scalers_loaded := some ck.scalers }

/-- The step used to form the checkpoint filename in the `load_dir` branch:
the caller-specified `load_step`, or `sorted(...)[-1]` over the parsed
directory listing (an exception on an empty listing). -/
def resolvedStep {P O S G : Type} (cfg : LoadConfig) (fs : LoadFS P O S G) :
    Except LoadErr Nat :=
  match cfg.load_step with
  | some s => .ok s
  | none =>
    match pySortedLast (fs.listing.map extractStep) with
    | some m => .ok m
    | none => .error .emptyDir

/-- Embedding of `Trainer._load_checkpoint`. -/
def load_checkpoint_fn {P O S G : Type} (cfg : LoadConfig) (fs : LoadFS P O S G) :
    Except LoadErr (LoadOutcome P O S G) :=
  match cfg.load_dir with
  | some dir =>
    match resolvedStep cfg fs with
    | .error e => .error e
    | .ok loadStep =>
      match fs.read (pathJoin dir (ckptName loadStep)) with
      | none => .error (.missingFile (pathJoin dir (ckptName loadStep)))
      | some ck => .ok (loadedOutcome cfg ck)
  | none =>
    match cfg.load_checkpoint with
    | some p =>
      match fs.read p with
      | none => .error (.missingFile p)
      | some ck => .ok (loadedOutcome cfg ck)
    | none => .ok ⟨0, none, none, none, none⟩

/-- C4: `_load_checkpoint` behavior.  (a) with a `load_dir`, no explicit
`load_step`, and a directory of well-formed checkpoint names, it resolves the
numerically largest step suffix; (b) in the `load_dir` branch the resolved
path is loaded — a missing file is an error, and a present checkpoint `ck`
resumes at `ck.step + 1` restoring pipeline, optimizers, schedulers (exactly
when present and configured) and scaler; (c) the explicit-file branch behaves
the same; (d) with neither source configured the result is a non-error fresh
start at step 0 with nothing restored. -/
theorem load_checkpoint_behavior {P O S G : Type} (cfg : LoadConfig) (fs : LoadFS P O S G) :
    (∀ (steps : List Nat), cfg.load_step = none →
      fs.listing = steps.map ckptName → steps ≠ [] →
      ∃ m, resolvedStep cfg fs = .ok m ∧ m ∈ steps ∧ ∀ x ∈ steps, x ≤ m) ∧
    (∀ (dir : PyStr) (m : Nat), cfg.load_dir = some dir → resolvedStep cfg fs = .ok m →
      (fs.read (pathJoin dir (ckptName m)) = none →
        load_checkpoint_fn cfg fs = .error (.missingFile (pathJoin dir (ckptName m)))) ∧
      (∀ ck, fs.read (pathJoin dir (ckptName m)) = some ck →
        load_checkpoint_fn cfg fs = .ok (loadedOutcome cfg ck))) ∧
    (∀ (p : PyStr), cfg.load_dir = none → cfg.load_checkpoint = some p →
      (fs.read p = none → load_checkpoint_fn cfg fs = .error (.missingFile p)) ∧
      (∀ ck, fs.read p = some ck →
        load_checkpoint_fn cfg fs = .ok (loadedOutcome cfg ck))) ∧
    (cfg.load_dir = none → cfg.load_checkpoint = none →
      load_checkpoint_fn cfg fs = .ok ⟨0, none, none, none, none⟩) ∧
    (∀ ck : Checkpoint P O S G,
      (loadedOutcome cfg ck).start_step = ck.step + 1 ∧
      (loadedOutcome cfg ck).pipeline_loaded = some (ck.pipeline, ck.step) ∧
      (loadedOutcome cfg ck).optimizers_loaded = some ck.optimizers ∧
      (loadedOutcome cfg ck).scalers_loaded = some ck.scalers ∧
      (cfg.load_scheduler = true → (loadedOutcome cfg ck).schedulers_loaded = ck.schedulers) ∧
      (cfg.load_scheduler = false → (loadedOutcome cfg ck).schedulers_loaded = none)) := by
  refine ⟨?_, ?_, ?_, ?_, ?_⟩
  · intro steps hstep hlist hne
    have hmap : fs.listing.map extractStep = steps := by
      rw [hlist, map_extractStep_ckptName]
    obtain ⟨m, hsl, hmem, hmax⟩ := pySortedLast_max steps hne
    refine ⟨m, ?_, hmem, hmax⟩
    rw [resolvedStep, hstep, hmap, hsl]
  · intro dir m hdir hres
    constructor
    · intro hread
      simp only [load_checkpoint_fn, hdir, hres, hread]
    · intro ck hread
      simp only [load_checkpoint_fn, hdir, hres, hread]
  · intro p hdir hckpt
    constructor
    · intro hread
      simp only [load_checkpoint_fn, hdir, hckpt, hread]
    · intro ck hread
      simp only [load_checkpoint_fn, hdir, hckpt, hread]
  · intro hdir hckpt
    simp only [load_checkpoint_fn, hdir, hckpt]
  · intro ck
    refine ⟨rfl, rfl, rfl, rfl, fun h => ?_, fun h => ?_⟩
    · simp [loadedOutcome, h]
    · simp [loadedOutcome, h]

theorem load_checkpoint_behavior_witness :
    load_checkpoint_fn ⟨some "ckpts".data, none, none, true⟩
      (⟨[ckptName 500], fun p => if p = pathJoin "ckpts".data (ckptName 500)
        then some (⟨500, 1, 2, some 3, 4⟩ : Checkpoint Nat Nat Nat Nat) else none⟩)
      = .ok ⟨501, some (1, 500), some 2, some 3, some 4⟩ ∧
    load_checkpoint_fn ⟨none, none, none, true⟩
      (⟨[], fun _ => none⟩ : LoadFS Nat Nat Nat Nat) = .ok ⟨0, none, none, none, none⟩ := by
  constructor
  · have h := (load_checkpoint_behavior ⟨some "ckpts".data, none, none, true⟩
      ⟨[ckptName 500], fun p => if p = pathJoin "ckpts".data (ckptName 500)
        then some (⟨500, 1, 2, some 3, 4⟩ : Checkpoint Nat Nat Nat Nat) else none⟩).2.1
      "ckpts".data 500 rfl (by simp [resolvedStep, pySortedLast, extractStep_ckptName])
    exact h.2 ⟨500, 1, 2, some 3, 4⟩ (by simp)
  · exact (load_checkpoint_behavior ⟨none, none, none, true⟩
      (⟨[], fun _ => none⟩ : LoadFS Nat Nat Nat Nat)).2.2.2.1 rfl rfl

/-! ## Pipeline.load_state_dict (base_pipeline.py lines 114-168)

State dicts are association lists `List (PyStr × V)`.  The model's own
`load_state_dict` is an oracle `modelLoad state strictFlag` that either
succeeds or raises `RuntimeError`.  The method splits the incoming dict into
model state (keys with the `_model.` prefix stripped, and the DDP `module.`
prefix stripped when every model key carries it) and pipeline state, tries a
strict model restore, and on `RuntimeError` retries non-strict when the
caller's `strict` argument (an `Optional[bool]`, `None` by default) is not
`True`, re-raising otherwise; finally the pipeline state is loaded
non-strict. -/

/-- The test `key.startswith("_model.")`. -/
def isModelKey {V : Type} (kv : PyStr × V) : Bool := "_model.".data.isPrefixOf kv.1

/-- The `model_state` dict before DDP handling: `_model.` (7 chars) stripped. -/
def modelKeyEntries {V : Type} (sd : List (PyStr × V)) : List (PyStr × V) :=
  (sd.filter isModelKey).map (fun kv => (kv.1.drop 7, kv.2))

/-- The flag `is_ddp_model_state`: every model key starts with `_model.module.`. -/
def is_ddp_model_state {V : Type} (sd : List (PyStr × V)) : Bool :=
  sd.all (fun kv => !isModelKey kv || "_model.module.".data.isPrefixOf kv.1)

/-- The final `model_state`: `module.` (7 chars) additionally stripped when
the dict is a DDP model state. -/
def model_state {V : Type} (sd : List (PyStr × V)) : List (PyStr × V) :=
  if is_ddp_model_state sd then
    (modelKeyEntries sd).map (fun kv => (kv.1.drop 7, kv.2))
  else modelKeyEntries sd

/-- The dict `pipeline_state`: the entries whose key does not start with `_model.`. -/
def pipeline_state {V : Type} (sd : List (PyStr × V)) : List (PyStr × V) :=
  sd.filter (fun kv => !isModelKey kv)

/-- Embedding of `Pipeline.load_state_dict`: returns the ordered list of
strict-flags passed to the model's `load_state_dict` calls, paired with the
overall outcome (`ok` carries the pipeline state loaded non-strict at the
end; `error` is the propagated `RuntimeError`). -/
def pipeline_load_state_dict {V : Type}
    (modelLoad : List (PyStr × V) → Bool → Except Unit Unit)
    (sd : List (PyStr × V)) (strict : Option Bool) :
    List Bool × Except Unit (List (PyStr × V)) :=
  let ms := model_state sd
  match modelLoad ms true with
  | .ok _ => ([true], .ok (pipeline_state sd))
  | .error _ =>
    if strict = some true then ([true], .error ())
    else
      match modelLoad ms false with
      | .ok _ => ([true, false], .ok (pipeline_state sd))
      | .error e => ([true, false], .error e)

/-- C8: when the strict model-state restore raises, `load_state_dict`
retries with relaxed (non-strict) key matching exactly when the caller's
`strict` argument is not `True`, and propagates the failure fatally, with no
retry, exactly when the caller demands strict loading. -/
theorem strict_restore_retry {V : Type}
    (modelLoad : List (PyStr × V) → Bool → Except Unit Unit)
    (sd : List (PyStr × V)) (strict : Option Bool) :
    (modelLoad (model_state sd) true = .ok () →
      pipeline_load_state_dict modelLoad sd strict = ([true], .ok (pipeline_state sd))) ∧
    (modelLoad (model_state sd) true = .error () →
      ((pipeline_load_state_dict modelLoad sd strict).1 = [true, false] ↔
        strict ≠ some true) ∧
      (((pipeline_load_state_dict modelLoad sd strict).1 = [true] ∧
          (pipeline_load_state_dict modelLoad sd strict).2 = .error ()) ↔
        strict = some true) ∧
      (strict ≠ some true →
        (pipeline_load_state_dict modelLoad sd strict).2
          = (modelLoad (model_state sd) false).map (fun _ => pipeline_state sd))) := by
  constructor
  · intro hok
    simp only [pipeline_load_state_dict, hok]
  · intro herr
    by_cases hs : strict = some true
    · have hres : pipeline_load_state_dict modelLoad sd strict = ([true], .error ()) := by
        simp only [pipeline_load_state_dict, herr, hs, if_true]
      refine ⟨?_, ?_, ?_⟩
      · rw [hres]
        exact ⟨fun h => by simp at h, fun h => absurd hs h⟩
      · rw [hres]
        exact ⟨fun _ => hs, fun _ => ⟨rfl, rfl⟩⟩
      · intro h
        exact absurd hs h
    · cases hr : modelLoad (model_state sd) false with
      | ok u =>
        have hres : pipeline_load_state_dict modelLoad sd strict
            = ([true, false], .ok (pipeline_state sd)) := by
          simp only [pipeline_load_state_dict, herr, if_neg hs, hr]
        refine ⟨⟨fun _ => hs, fun _ => by rw [hres]⟩, ?_, ?_⟩
        · constructor
          · rintro ⟨h1, -⟩
            rw [hres] at h1
            simp at h1
          · intro h
            exact absurd h hs
        · intro _
          simp only [hres, hr]
          rfl
      | error e =>
        have hres : pipeline_load_state_dict modelLoad sd strict
            = ([true, false], .error e) := by
          simp only [pipeline_load_state_dict, herr, if_neg hs, hr]
        refine ⟨⟨fun _ => hs, fun _ => by rw [hres]⟩, ?_, ?_⟩
        · constructor
          · rintro ⟨h1, -⟩
            rw [hres] at h1
            simp at h1
          · intro h
            exact absurd h hs
        · intro _
          simp only [hres, hr]
          rfl

theorem strict_restore_retry_witness :
    (pipeline_load_state_dict (fun _ b => if b then .error () else .ok ())
      ([] : List (PyStr × Nat)) none).1 = [true, false] :=
  (((strict_restore_retry (fun _ b => if b then .error () else .ok ())
      ([] : List (PyStr × Nat)) none).2 rfl).1).mpr (by decide)

end NerfstudioTrainer





